import Mathlib

/-!
Verification development for the self-update resolution engine and the
mp4decrypt postprocessor of this repository.

The update engine (`yt_dlp/update.py`) is exercised by `test/test_update.py`;
the module itself is not part of the source tree here, so its operations are
modelled from the specification document (see the doc comment on each such
definition).  The postprocessor `yt_dlp/postprocessor/mp4decrypt.py` is in the
source tree and is embedded directly.
-/

/-! ## Version comparator -/

/-- Three-way comparison result used by the version comparator. -/
inductive VCmp
| lt
| eq
| gt
deriving DecidableEq, Repr

/-- Swap of a three-way comparison result. -/
def VCmp.swap : VCmp → VCmp
| .lt => .gt
| .eq => .eq
| .gt => .lt

/-- Split a character list on every occurrence of a character satisfying `p`.
Mirrors the behaviour of splitting a Python string on a one-character
separator: `splitOnP (fun c => c = '.') "1..2"` gives `["1", "", "2"]`. -/
def splitOnP (p : Char → Bool) : List Char → List (List Char)
| [] => [[]]
| c :: rest =>
  if p c then [] :: splitOnP p rest
  else
    match splitOnP p rest with
    | [] => [[c]]
    | s :: ss => (c :: s) :: ss

/-- Split on the dot separator, as `s.split('.')` does in Python. -/
def splitDots (cs : List Char) : List (List Char) :=
  splitOnP (fun c => c = '.') cs

/-- Decimal value of a list of digit characters. -/
def digitsToNat (cs : List Char) : Nat :=
  cs.foldl (fun n c => 10 * n + (c.toNat - 48)) 0

/-- Modelled from the spec: `classify(s) -> Numeric|Opaque` of the missing
`yt_dlp/update.py`.  A character-list string is Numeric iff it matches
`^\d+(\.\d+)*$`: every dot-separated segment is nonempty and all digits. -/
def isNumericStr (cs : List Char) : Bool :=
  (splitDots cs).all (fun s => !s.isEmpty && s.all Char.isDigit)

/-- Modelled from the spec: classification of a version-like string of the
missing `yt_dlp/update.py`; `classifyNumeric s = true` means Numeric,
`false` means Opaque (any other string). -/
def classifyNumeric (s : String) : Bool :=
  isNumericStr s.toList

/-- Integer segments of a version string (the dot-separated pieces). -/
def segsOf (cs : List Char) : List Nat :=
  (splitDots cs).map digitsToNat

/-- Are all segments zero?  Comparing a list against its zero padding. -/
def allZeroSegs (l : List Nat) : Bool :=
  l.all (fun x => x == 0)

/-- Segment-by-segment comparison where the shorter list is padded with
trailing zero segments, as the spec describes for `compare`: when one side
is exhausted, the remaining segments of the other are compared against the
zero padding. -/
def cmpSegs : List Nat → List Nat → VCmp
| [], bs => if allZeroSegs bs = true then .eq else .lt
| a :: as, [] => if allZeroSegs (a :: as) = true then .eq else .gt
| a :: as, b :: bs =>
  if a < b then .lt else if b < a then .gt else cmpSegs as bs

/-- Modelled from the spec: `compare(a, b)` of the missing
`yt_dlp/update.py`.  Splits each string on `.` into integer segments, pads
the shorter with trailing zeros and compares segment-by-segment. -/
def compareVer (a b : String) : VCmp :=
  cmpSegs (segsOf a.toList) (segsOf b.toList)

/-! ## Compatibility lockfile engine -/

/-- Modelled from the spec: a parsed lock rule of the missing
`yt_dlp/update.py`.  `repository = none` is the legacy format, implicitly
scoped to the canonical repository; the pattern is kept as the raw
rest-of-line regular expression text. -/
structure LockRule where
  repository : Option String
  ceiling : String
  pattern : String
deriving DecidableEq, Repr

/-- Does `pre` occur at the start of `cs`? -/
def startsWithChars : List Char → List Char → Bool
| [], _ => true
| _ :: _, [] => false
| a :: as, b :: bs => a = b && startsWithChars as bs

/-- Word before the first space together with the rest after that space;
`none` when the list has no space at all. -/
def splitWord : List Char → Option (List Char × List Char)
| [] => none
| c :: rest =>
  if c = ' ' then some ([], rest)
  else
    match splitWord rest with
    | some (w, r) => some (c :: w, r)
    | none => none

/-- Modelled from the spec: one line of `parse(document)` of the missing
`yt_dlp/update.py`.  A legacy line is `lock <ceiling> <rest-of-line>`, an
explicit line is `lockV2 <repository> <ceiling> <rest-of-line>`; the
rest-of-line is a single regular expression kept verbatim (it may contain
embedded whitespace).  Blank lines, `#` comment lines and malformed lines
yield `none` and are skipped. -/
def parseRuleChars (cs : List Char) : Option LockRule :=
  if startsWithChars ("lockV2 ".toList) cs = true then
    match splitWord (cs.drop 7) with
    | some (w1, rest1) =>
      match splitWord rest1 with
      | some (w2, rest2) =>
        if w1 = [] ∨ w2 = [] then none
        else some { repository := some (String.mk w1), ceiling := String.mk w2,
                    pattern := String.mk rest2 }
      | none => none
    | none => none
  else if startsWithChars ("lock ".toList) cs = true then
    match splitWord (cs.drop 5) with
    | some (w1, rest1) =>
      if w1 = [] then none
      else some { repository := none, ceiling := String.mk w1, pattern := String.mk rest1 }
    | none => none
  else none

/-- Modelled from the spec: parse a single lockfile line. -/
def parseRule (line : String) : Option LockRule :=
  parseRuleChars line.toList

/-- Modelled from the spec: `parse(document) -> Lockfile` of the missing
`yt_dlp/update.py`; the document is split into lines and malformed lines
are skipped rather than fatal. -/
def parseLockfile (doc : String) : List LockRule :=
  (splitOnP (fun c => c = '\n') doc.toList).filterMap parseRuleChars

/-- Modelled from the spec: does a rule apply to a query?  Legacy rules
(no repository field) apply only to the canonical repository; explicit
rules apply when their repository field equals the queried repository; in
both cases the rest-of-line regex must match the subject.  The regex
matcher `mf` is a parameter so that rule-selection logic can be studied
independently of the concrete regex engine. -/
def ruleApplies (mf : String → String → Bool) (canonical : String) (r : LockRule)
    (repo subj : String) : Bool :=
  (r.repository.getD canonical == repo) && mf r.pattern subj

/-- Modelled from the spec: `CeilingSet` of the missing `yt_dlp/update.py` —
the minimum Numeric ceiling among Numeric-ceiling matches (if any) and the
Opaque ceiling values among Opaque-ceiling matches. -/
structure CeilingSet where
  numMin : Option String
  opqs : List String
deriving DecidableEq, Repr

/-- Smaller of two Numeric version strings under `compareVer` (first one on
ties). -/
def minVer (a b : String) : String :=
  if compareVer b a = .lt then b else a

/-- Minimum of a list of Numeric version strings, `none` on the empty list. -/
def foldMin : List String → Option String
| [] => none
| c :: cs => some (cs.foldl minVer c)

/-- Ceilings of the rules applicable to a query, in document order. -/
def ceilCands (mf : String → String → Bool) (canonical : String)
    (rules : List LockRule) (repo subj : String) : List String :=
  (rules.filter (fun r => ruleApplies mf canonical r repo subj)).map LockRule.ceiling

/-- Modelled from the spec: `ceiling(lockfile, repository, subject)` of the
missing `yt_dlp/update.py`.  Filters to applicable rules and partitions
their ceilings into the minimum Numeric ceiling and the Opaque ceilings. -/
def ceilingSet (mf : String → String → Bool) (canonical : String)
    (rules : List LockRule) (repo subj : String) : CeilingSet :=
  { numMin := foldMin ((ceilCands mf canonical rules repo subj).filter
      (fun c => classifyNumeric c)),
    opqs := (ceilCands mf canonical rules repo subj).filter
      (fun c => !classifyNumeric c) }

/-- Equality of optional Numeric ceilings up to version equality: both
absent, or both present and `compare`-equal. -/
def sameCeiling : Option String → Option String → Prop
| none, none => True
| some a, some b => compareVer a b = .eq
| _, _ => False

/-- Modelled from the spec: the `Decision` sum of the missing
`yt_dlp/update.py`: `Unrestricted(value)`, `Capped(value)` or `Blocked`. -/
inductive Decision
| unrestricted (v : String)
| capped (v : String)
| blocked
deriving DecidableEq, Repr

/-- Modelled from the spec: `apply(ceilingSet, requested_tag_or_version,
exact) -> Decision` of the missing `yt_dlp/update.py`:
1. requested is Opaque and equals an Opaque ceiling → Blocked;
2. else a Numeric ceiling exists, requested is Numeric and compares greater
   → Blocked when exact, else Capped(ceiling);
3. else Unrestricted(requested). -/
def applyCeil (cs : CeilingSet) (req : String) (exact : Bool) : Decision :=
  if classifyNumeric req = false ∧ cs.opqs.any (fun t => t == req) = true then .blocked
  else
    match cs.numMin with
    | some x =>
      if classifyNumeric req = true ∧ compareVer req x = .gt then
        if exact then .blocked else .capped x
      else .unrestricted req
    | none => .unrestricted req

/-! ## Regular expression engine

Modelled from the spec: the rule's rest-of-line regex is tested against the
match subject with a prefix-anchored (start-of-string) match, as Python's
`re.match` does.  The engine below covers the regex fragment needed by the
lockfile grammar as specified: literal characters, backslash escapes, the
`.` wildcard and the `+`/`*` postfix repetitions.  Matching is implemented
with Brzozowski derivatives. -/

/-- Abstract syntax of the supported regular expression fragment. -/
inductive Regx
| fail
| eps
| ch (c : Char)
| dot
| cat (p q : Regx)
| alt (p q : Regx)
| star (p : Regx)
deriving DecidableEq, Repr

/-- Does the regex accept the empty string? -/
def nullable : Regx → Bool
| .fail => false
| .eps => true
| .ch _ => false
| .dot => false
| .cat p q => nullable p && nullable q
| .alt p q => nullable p || nullable q
| .star _ => true

/-- Brzozowski derivative of a regex with respect to one character. -/
def rderiv : Regx → Char → Regx
| .fail, _ => .fail
| .eps, _ => .fail
| .ch c, a => if a = c then .eps else .fail
| .dot, _ => .eps
| .cat p q, a =>
  if nullable p then .alt (.cat (rderiv p a) q) (rderiv q a)
  else .cat (rderiv p a) q
| .alt p q, a => .alt (rderiv p a) (rderiv q a)
| .star p, a => .cat (rderiv p a) (.star p)

/-- Prefix-anchored match: does the regex match some prefix of the input?
This is the `re.match` semantics: trailing content after the matched span
does not prevent a match. -/
def reMatch : Regx → List Char → Bool
| p, [] => nullable p
| p, a :: s => nullable p || reMatch (rderiv p a) s

/-- Full match: the regex must consume the whole input. -/
def reFull (p : Regx) (s : List Char) : Bool :=
  nullable (s.foldl rderiv p)

/-- Parser for the supported regex fragment, accumulating the atom list in
reverse; a postfix `+` or `*` applies to the most recent atom.  Constructs
outside the fragment (groups, alternation, classes, anchors) are rejected
with `none`. -/
def parseReAux : List Char → List Regx → Option (List Regx)
| [], acc => some acc.reverse
| '\\' :: c :: rest, acc => parseReAux rest (.ch c :: acc)
| ['\\'], _ => none
| '.' :: rest, acc => parseReAux rest (.dot :: acc)
| '+' :: rest, a :: acc => parseReAux rest (.cat a (.star a) :: acc)
| '+' :: _, [] => none
| '*' :: rest, a :: acc => parseReAux rest (.star a :: acc)
| '*' :: _, [] => none
| c :: rest, acc =>
  if c = '(' ∨ c = ')' ∨ c = '[' ∨ c = ']' ∨ c = '|' ∨ c = '?' ∨ c = '^' ∨ c = '$' then none
  else parseReAux rest (.ch c :: acc)

/-- Concatenation of a list of regexes. -/
def catAll : List Regx → Regx
| [] => .eps
| [r] => r
| r :: rest => .cat r (catAll rest)

/-- Parse a regex pattern string into the supported fragment. -/
def parseRe (s : String) : Option Regx :=
  (parseReAux s.toList []).map catAll

/-- Concrete instantiation of the rule matcher: parse the rest-of-line
pattern and run the prefix-anchored match against the subject; an
unsupported pattern matches nothing. -/
def matchPat (pat subj : String) : Bool :=
  match parseRe pat with
  | some r => reMatch r subj.toList
  | none => false

/-- Full-string variant of `matchPat`, used to contrast the prefix-anchored
semantics with a full match. -/
def matchPatFull (pat subj : String) : Bool :=
  match parseRe pat with
  | some r => reFull r subj.toList
  | none => false

/-! ## Release metadata resolver -/

/-- Modelled from the spec: the raw release record fetched per
(repository, tag): `tag_name`, `target_commitish`, `name`, `body`. -/
structure ReleaseRecord where
  tagName : String
  targetCommitish : String
  displayName : String
  bodyText : String
deriving DecidableEq, Repr

/-- Modelled from the spec: the `UpdateInfo` produced by the resolver. -/
structure UpdateInfo where
  tag : String
  version : Option String
  requestedVersion : Option String
  commit : Option String
deriving DecidableEq, Repr

/-- Whitespace-delimited words of a character list. -/
def wordsOf (cs : List Char) : List (List Char) :=
  (splitOnP Char.isWhitespace cs).filter (fun w => w ≠ [])

/-- Modelled from the spec: the trailing whitespace-delimited token of
`display_name`, kept only when it is itself Numeric. -/
def lastNumTok (s : String) : Option String :=
  match (wordsOf s.toList).getLast? with
  | some w => if isNumericStr w = true then some (String.mk w) else none
  | none => none

/-- Is the character a hexadecimal digit? -/
def isHexDigitCh (c : Char) : Bool :=
  c.isDigit || ('a' ≤ c && c ≤ 'f') || ('A' ≤ c && c ≤ 'F')

/-- Modelled from the spec: the 40-hexadecimal-character commit hash
pattern. -/
def isHex40 (s : String) : Bool :=
  s.toList.length = 40 && s.toList.all isHexDigitCh

/-- Modelled from the spec: search the body text for a URL of the form
`.../commit/<40-hex-chars>` and return the captured hash. -/
def hashAfterCommitUrl : List Char → Option (List Char)
| [] => none
| c :: rest =>
  if startsWithChars ("/commit/".toList) (c :: rest) = true then
    let h := ((c :: rest).drop 8).take 40
    if h.length = 40 && h.all isHexDigitCh then some h
    else hashAfterCommitUrl rest
  else hashAfterCommitUrl rest

/-- Modelled from the spec: the `version` field of
`toUpdateInfo(requested_tag, record)`: the tag name when it is Numeric,
else the trailing Numeric token of the display name, else absent. -/
def deriveVersion (r : ReleaseRecord) : Option String :=
  if classifyNumeric r.tagName = true then some r.tagName
  else lastNumTok r.displayName

/-- Modelled from the spec: the `commit` field of `toUpdateInfo`: the
target commitish when it is 40 hex characters, else the hash captured from
a `.../commit/<hash>` URL in the body text, else absent. -/
def deriveCommit (r : ReleaseRecord) : Option String :=
  if isHex40 r.targetCommitish = true then some r.targetCommitish
  else (hashAfterCommitUrl r.bodyText.toList).map String.mk

/-- Modelled from the spec: `toUpdateInfo(requested_tag, record)` of the
missing `yt_dlp/update.py`.  `explicitTag` is the requested tag when it was
explicit (`none` means "latest" was requested and resolves to the record's
tag name); `requested_version` is kept as a distinct field but never
diverges from `version` at this stage. -/
def toUpdateInfo (explicitTag : Option String) (r : ReleaseRecord) : UpdateInfo :=
  let v := deriveVersion r
  { tag := explicitTag.getD r.tagName, version := v, requestedVersion := v,
    commit := deriveCommit r }

/-! ## Update orchestrator -/

/-- Modelled from the spec: the first tier of the up-to-date check — both
the resolved version and the current version are present and Numeric and
the resolved one does not compare greater. -/
def tierVersions : Option String → Option String → Bool
| some v, some cv =>
  classifyNumeric v && classifyNumeric cv &&
    (match compareVer v cv with
     | .gt => false
     | _ => true)
| _, _ => false

/-- Modelled from the spec: step 4 of `queryUpdate` of the missing
`yt_dlp/update.py` — decide whether an update is actually needed.  A `none`
result is the clean "no update needed" signal, not an error. -/
def decideUpdate (info : UpdateInfo) (currentVersion : Option String)
    (currentCommit : String) : Option UpdateInfo :=
  if tierVersions info.version currentVersion = true then none
  else if info.commit = some currentCommit then none
  else some info

/-- Modelled from the spec: the core of `queryUpdate` of the missing
`yt_dlp/update.py`, starting from the fetched release record: derive the
provisional UpdateInfo, apply the lockfile ceiling to the provisional tag
(`Blocked` gives a clean `none`; `Capped` replaces tag, version and
requested_version with the capped value, keeping the commit as-is), then
run the two-tier up-to-date decision. -/
def queryUpdate (mf : String → String → Bool) (canonical : String)
    (rules : List LockRule) (repo subj : String) (explicitTag : Option String)
    (r : ReleaseRecord) (exact : Bool) (currentVersion : Option String)
    (currentCommit : String) : Option UpdateInfo :=
  let info := toUpdateInfo explicitTag r
  match applyCeil (ceilingSet mf canonical rules repo subj) info.tag exact with
  | .blocked => none
  | .capped c =>
    decideUpdate { tag := c, version := some c, requestedVersion := some c,
                   commit := info.commit } currentVersion currentCommit
  | .unrestricted _ => decideUpdate info currentVersion currentCommit

/-! ## MP4DecryptPP postprocessor (embedded from
`src/yt_dlp/postprocessor/mp4decrypt.py`) -/

/-- One entry of the parsed key-server response's `keys` list; the code
reads `key_data[0]['key']`, so an entry carries its `key` string. -/
structure KeyEntry where
  key : String
deriving DecidableEq, Repr

/-- Observable outcome of `MP4DecryptPP.keydb`. -/
inductive KeydbResult
| retNone
| retTrue
| retFalse
| errTypeNone
| errIndex
deriving DecidableEq, Repr

/-- Outcome of a `keydb` call together with the side effects that would
have touched the filesystem. -/
structure KeydbTrace where
  result : KeydbResult
  ranSubprocess : Bool
  removedInput : Bool
  renamedOutput : Bool
deriving DecidableEq, Repr

/-- Embedding of `MP4DecryptPP.keydb` (mp4decrypt.py lines 72-122), after
the network post and `json.loads`: the input is the parsed response's
`keys` entry (`data.get("keys")`), `none` standing for an absent or null
entry.  `requests.post` returns a `Response` or raises, never `None`, so
the `if r is not None` test always takes the `then` branch and the final
`else: print(...)` arm is dead.  The `try` block's only handler catches
`subprocess.CalledProcessError`, which nothing reachable raises. -/
def keydb (keys : Option (List KeyEntry)) : KeydbTrace :=
  let cmd : List String := ["mp4decrypt"]
  match keys with
  | some keyData =>
    -- `if key_data is not None:` branch
    match keyData with
    | [] =>
      -- `key_value = key_data[0]['key']` raises IndexError on an empty list
      { result := .errIndex, ranSubprocess := false, removedInput := false,
        renamedOutput := false }
    | e :: _ =>
      -- `cmd.extend(["--key", key_value])`, then control falls out of the
      -- `if r is not None` block and the function with no return statement,
      -- so Python returns None
      let _cmd2 := cmd ++ ["--key", e.key]
      { result := .retNone, ranSubprocess := false, removedInput := false,
        renamedOutput := false }
  | none =>
    -- `else:` branch: `data = data.get("keys")` re-reads the same absent
    -- entry and rebinds data to None
    let data : Option (List String) := none
    match data with
    | some ks =>
      -- body of `for key in data:` and the lines after the loop:
      -- cmd.extend(...); subprocess.run(cmd, check=True); os.remove;
      -- os.rename; return True
      let _cmd2 := cmd ++ (ks.map (fun k => ["--key", k])).flatten
      { result := .retTrue, ranSubprocess := true, removedInput := true,
        renamedOutput := true }
    | none =>
      -- `for key in None:` raises TypeError before any of those lines run
      { result := .errTypeNone, ranSubprocess := false, removedInput := false,
        renamedOutput := false }

/-- One entry of `info['formats']` as read by `MP4DecryptPP.run`:
`format_obj.get('manifest_url', '')` and `formats[0].get('http_headers')`
(`none` models an absent key; an empty header dict is falsy in Python and
is modelled by `some []`). -/
structure FormatObj where
  manifestUrl : String
  httpHeaders : Option (List (String × String))
deriving DecidableEq, Repr

/-- The slice of the info dict that `MP4DecryptPP.run` reads. -/
structure InfoDict where
  filepath : Option String
  licenceUrl : Option String
  formats : List FormatObj
deriving DecidableEq, Repr

/-- Result of fetching the manifest URL: the text of the `<cenc:pssh>` tag
when `BeautifulSoup(...).find('cenc:pssh')` finds one, else `none`. -/
structure ManifestDoc where
  cencPssh : Option String
deriving DecidableEq, Repr

/-- Observable outcome of `MP4DecryptPP.run`. -/
inductive RunResult
| returned
| errUnboundLocal
| calledKeydb (pssh : String)
deriving DecidableEq, Repr

/-- Substring test, as Python's `".mpd" in url`. -/
def containsSub (s sub : String) : Bool :=
  go s.toList sub.toList
where
  go : List Char → List Char → Bool
  | cs, sub =>
    if startsWithChars sub cs = true then true
    else
      match cs with
      | [] => false
      | _ :: rest => go rest sub

/-- The loop at the top of `run`: the first format whose `manifest_url`
contains `".mpd"` (the loop breaks at the first hit). -/
def findMpdUrl (formats : List FormatObj) : Option String :=
  (formats.find? (fun f => containsSub f.manifestUrl ".mpd")).map FormatObj.manifestUrl

/-- Embedding of `MP4DecryptPP.run` (mp4decrypt.py lines 14-70).
`hasDecrypt` and `hasKeyfile` model `'decrypt' in self._kwargs` and
`'keyfile' in self._kwargs`; `fetch` models the `session.get(manifest_url,
headers=cookies)` response as parsed by BeautifulSoup.  The local variable
`cenc_pssh_value` is assigned only inside the manifest/cookies/pssh-tag
branches; the `Option` below is `some` exactly when the Python local is
bound, and reading it while unbound raises `UnboundLocalError`. -/
def runPP (info : InfoDict) (hasDecrypt hasKeyfile : Bool)
    (fetch : String → ManifestDoc) : RunResult :=
  let manifestUrl := findMpdUrl info.formats
  let cencPsshValue : Option String :=
    match manifestUrl with
    | some u =>
      match info.formats.head? with
      | some f0 =>
        match f0.httpHeaders with
        | some hs =>
          -- `if cookies:` — an empty dict is falsy
          if hs.isEmpty then none
          else
            match (fetch u).cencPssh with
            | some v => some v
            | none => none  -- "No <cenc:pssh> tag found in the response."
        | none => none      -- "No cookies found in the format object."
      | none => none        -- unreachable: a found manifest URL implies a format
    | none => none          -- "No manifest URL containing '.mpd' found."
  match info.filepath with
  | some fp =>
    if fp = "" then .returned  -- falsy filepath: the `else` branch prints and returns
    else if hasDecrypt then
      match cencPsshValue with
      | some v => .calledKeydb v  -- success = self.keydb(filepath, cenc_pssh_value, ...)
      | none => .errUnboundLocal  -- reading the unbound local raises
    else if hasKeyfile then .returned
    else .returned
  | none => .returned

/-! ## Lemmas about the version comparator -/

theorem cmpSegs_nil_left (bs : List Nat) :
    cmpSegs [] bs = (if allZeroSegs bs = true then VCmp.eq else VCmp.lt) := rfl

theorem cmpSegs_nil_right (as : List Nat) :
    cmpSegs as [] = (if allZeroSegs as = true then VCmp.eq else VCmp.gt) := by
  cases as with
  | nil => simp [cmpSegs, allZeroSegs]
  | cons a as => rfl

theorem cmpSegs_refl (a : List Nat) : cmpSegs a a = .eq := by
  induction a with
  | nil => decide
  | cons x xs ih => simp [cmpSegs, ih]

theorem cmpSegs_swap (a : List Nat) : ∀ b, cmpSegs b a = (cmpSegs a b).swap := by
  induction a with
  | nil =>
    intro b
    rw [cmpSegs_nil_left, cmpSegs_nil_right]
    split <;> rfl
  | cons x xs ih =>
    intro b
    cases b with
    | nil =>
      rw [cmpSegs_nil_left, cmpSegs_nil_right]
      split <;> rfl
    | cons y ys =>
      simp only [cmpSegs]
      rcases Nat.lt_trichotomy x y with h | h | h
      · have h1 : ¬y < x := by omega
        simp [h, h1, VCmp.swap]
      · subst h
        simp [ih ys]
      · have h1 : ¬x < y := by omega
        simp [h, h1, VCmp.swap]

theorem cmpSegs_nil_left_ne_gt (c : List Nat) : cmpSegs [] c ≠ .gt := by
  rw [cmpSegs_nil_left]
  split <;> simp

theorem cmpSegs_allZero_left (l : List Nat) :
    ∀ c, allZeroSegs l = true → cmpSegs l c = cmpSegs [] c := by
  induction l with
  | nil => intro c _; rfl
  | cons x xs ih =>
    intro c hall
    have hx : x = 0 := by
      simp only [allZeroSegs, List.all_cons, Bool.and_eq_true, beq_iff_eq] at hall
      exact hall.1
    have hxs : allZeroSegs xs = true := by
      simp only [allZeroSegs, List.all_cons, Bool.and_eq_true] at hall
      exact hall.2
    subst hx
    cases c with
    | nil =>
      have h2 : cmpSegs [] ([] : List Nat) = .eq := by decide
      rw [h2, cmpSegs_nil_right, if_pos hall]
    | cons y ys =>
      by_cases hy : 0 < y
      · have hyne : y ≠ 0 := by omega
        have hfalse : allZeroSegs (y :: ys) = false := by
          simp [allZeroSegs, hyne]
        simp only [cmpSegs]
        rw [if_pos hy, hfalse]
        simp
      · have hy0 : y = 0 := by omega
        subst hy0
        have h0 : allZeroSegs (0 :: ys) = allZeroSegs ys := by
          simp [allZeroSegs]
        simp only [cmpSegs, Nat.lt_irrefl, if_false]
        rw [ih ys hxs, cmpSegs_nil_left, h0]

theorem cmpSegs_le_trans (a : List Nat) :
    ∀ b c, cmpSegs a b ≠ .gt → cmpSegs b c ≠ .gt → cmpSegs a c ≠ .gt := by
  induction a with
  | nil => intro b c _ _; exact cmpSegs_nil_left_ne_gt c
  | cons x xs ih =>
    intro b c h1 h2
    cases b with
    | nil =>
      rw [cmpSegs_nil_right] at h1
      have hz : allZeroSegs (x :: xs) = true := by
        by_contra hne
        simp [hne] at h1
      rw [cmpSegs_allZero_left _ c hz]
      exact cmpSegs_nil_left_ne_gt c
    | cons y ys =>
      cases c with
      | nil =>
        rw [cmpSegs_nil_right] at h2
        have hz : allZeroSegs (y :: ys) = true := by
          by_contra hne
          simp [hne] at h2
        simp only [allZeroSegs, List.all_cons, Bool.and_eq_true, beq_iff_eq] at hz
        obtain ⟨hy0, hys⟩ := hz
        subst hy0
        simp only [cmpSegs] at h1
        have hx0 : x = 0 := by
          by_contra hxne
          have hx : 0 < x := by omega
          have h1' : ¬x < 0 := by omega
          simp [h1', hx] at h1
        subst hx0
        simp only [Nat.lt_irrefl, if_false] at h1
        have hys' : cmpSegs ys [] ≠ .gt := by
          rw [cmpSegs_nil_right]
          simp [allZeroSegs, hys]
        have hmain := ih ys [] h1 hys'
        rw [cmpSegs_nil_right] at hmain
        rw [cmpSegs_nil_right]
        have hall : allZeroSegs (0 :: xs) = allZeroSegs xs := by
          simp [allZeroSegs]
        rw [hall]
        rw [cmpSegs_nil_right] at hys'
        exact hmain
      | cons z zs =>
        simp only [cmpSegs] at h1 h2 ⊢
        rcases Nat.lt_trichotomy x y with hxy | hxy | hxy
        · rcases Nat.lt_trichotomy y z with hyz | hyz | hyz
          · have hxz : x < z := by omega
            simp [hxz]
          · subst hyz
            simp [hxy]
          · have hy1 : ¬y < z := by omega
            simp [hyz, hy1] at h2
        · subst hxy
          rcases Nat.lt_trichotomy x z with hyz | hyz | hyz
          · simp [hyz]
          · subst hyz
            simp only [Nat.lt_irrefl, if_false] at h1 h2 ⊢
            exact ih _ _ h1 h2
          · have hy1 : ¬x < z := by omega
            simp [hyz, hy1] at h2
        · have hx1 : ¬x < y := by omega
          simp [hxy, hx1] at h1

theorem cmpSegs_eq_of_le_le {a b : List Nat}
    (h1 : cmpSegs a b ≠ .gt) (h2 : cmpSegs b a ≠ .gt) : cmpSegs a b = .eq := by
  rcases h : cmpSegs a b with _ | _ | _
  · rw [cmpSegs_swap, h] at h2
    exact absurd rfl h2
  · rfl
  · exact absurd h h1

theorem cmpSegs_lt_trans {a b c : List Nat}
    (h1 : cmpSegs a b = .lt) (h2 : cmpSegs b c = .lt) : cmpSegs a c = .lt := by
  have le1 : cmpSegs a b ≠ .gt := by rw [h1]; intro h; cases h
  have le2 : cmpSegs b c ≠ .gt := by rw [h2]; intro h; cases h
  have le3 := cmpSegs_le_trans a b c le1 le2
  rcases h : cmpSegs a c with _ | _ | _
  · rfl
  · exfalso
    have hca : cmpSegs c a = .eq := by rw [cmpSegs_swap, h]; rfl
    have hca' : cmpSegs c a ≠ .gt := by rw [hca]; intro h'; cases h'
    have hba : cmpSegs b a ≠ .gt := cmpSegs_le_trans b c a le2 hca'
    rw [cmpSegs_swap, h1] at hba
    exact hba rfl
  · exact absurd h le3

theorem cmpSegs_self_append_zero (l : List Nat) : cmpSegs l (l ++ [0]) = .eq := by
  induction l with
  | nil => decide
  | cons x xs ih => simp [cmpSegs, ih]

theorem splitOnP_ne_nil (p : Char → Bool) (l : List Char) : splitOnP p l ≠ [] := by
  cases l with
  | nil => simp [splitOnP]
  | cons c rest =>
    by_cases h : p c = true
    · simp [splitOnP, h]
    · simp only [splitOnP, h, Bool.false_eq_true, if_false]
      cases hsp : splitOnP p rest with
      | nil => simp
      | cons s ss => simp

theorem splitOnP_append_sep (p : Char → Bool) (c : Char) (hc : p c = true) :
    ∀ xs ys, splitOnP p (xs ++ c :: ys) = splitOnP p xs ++ splitOnP p ys := by
  intro xs
  induction xs with
  | nil =>
    intro ys
    simp [splitOnP, hc]
  | cons x xs ih =>
    intro ys
    by_cases hx : p x = true
    · simp [splitOnP, hx, ih]
    · simp only [List.cons_append, splitOnP, hx, Bool.false_eq_true, if_false]
      have e : splitOnP p (xs.append (c :: ys)) = splitOnP p xs ++ splitOnP p ys := ih ys
      rw [e]
      cases hsp : splitOnP p xs with
      | nil => exact absurd hsp (splitOnP_ne_nil p xs)
      | cons s ss => simp [hsp]

theorem segsOf_append_dot0 (l : List Char) :
    segsOf (l ++ ['.', '0']) = segsOf l ++ [0] := by
  have e : l ++ ['.', '0'] = l ++ '.' :: ['0'] := rfl
  simp only [segsOf, splitDots, e]
  rw [splitOnP_append_sep (fun c => c = '.') '.' (by decide) l ['0']]
  simp [splitOnP, digitsToNat]

theorem toList_append (s t : String) : (s ++ t).toList = s.toList ++ t.toList := by
  cases s
  cases t
  rfl

theorem compareVer_swap (a b : String) : compareVer b a = (compareVer a b).swap :=
  cmpSegs_swap _ _

theorem compareVer_refl (a : String) : compareVer a a = .eq :=
  cmpSegs_refl _

theorem compareVer_le_trans {a b c : String}
    (h1 : compareVer a b ≠ .gt) (h2 : compareVer b c ≠ .gt) : compareVer a c ≠ .gt :=
  cmpSegs_le_trans _ _ _ h1 h2

theorem compareVer_lt_trans {a b c : String}
    (h1 : compareVer a b = .lt) (h2 : compareVer b c = .lt) : compareVer a c = .lt :=
  cmpSegs_lt_trans h1 h2

theorem compareVer_eq_of_le_le {a b : String}
    (h1 : compareVer a b ≠ .gt) (h2 : compareVer b a ≠ .gt) : compareVer a b = .eq :=
  cmpSegs_eq_of_le_le h1 h2

theorem compareVer_append_zero (v : String) : compareVer v (v ++ ".0") = .eq := by
  unfold compareVer
  rw [toList_append]
  have h : (".0").toList = ['.', '0'] := by decide
  rw [h, segsOf_append_dot0]
  exact cmpSegs_self_append_zero _

/-- C8: for Numeric strings, `compare` splits on `.` into integer segments,
pads the shorter list with trailing zero segments and compares
segment-by-segment, giving a total order (antisymmetric via `swap`,
transitive, total by construction); consequently appending a zero segment
does not change comparison (`compare(v, v + ".0") == equal`), and strings
with different segment counts order correctly
(`compare("2023.12.31", "2023.12.31.1") == less`). -/
theorem c8_compare_total_order_and_padding :
    (∀ a b : String, compareVer b a = (compareVer a b).swap)
    ∧ (∀ a b c : String,
        compareVer a b = .lt → compareVer b c = .lt → compareVer a c = .lt)
    ∧ (∀ a b : String,
        compareVer a b = .lt ∨ compareVer a b = .eq ∨ compareVer a b = .gt)
    ∧ (∀ v : String, classifyNumeric v = true → compareVer v (v ++ ".0") = .eq)
    ∧ compareVer "2023.12.31" "2023.12.31.1" = .lt := by
  refine ⟨fun a b => compareVer_swap a b,
          fun a b c h1 h2 => compareVer_lt_trans h1 h2,
          fun a b => ?_,
          fun v _ => compareVer_append_zero v,
          by decide⟩
  rcases h : compareVer a b with _ | _ | _
  · exact Or.inl rfl
  · exact Or.inr (Or.inl rfl)
  · exact Or.inr (Or.inr rfl)

/-- Witness for C8 at a concrete Numeric input. -/
theorem c8_witness :
    classifyNumeric "2023.12.31" = true
    ∧ compareVer "2023.12.31" ("2023.12.31" ++ ".0") = .eq :=
  ⟨by decide, c8_compare_total_order_and_padding.2.2.2.1 "2023.12.31" (by decide)⟩

/-! ## Lemmas about the lockfile engine -/

theorem minVer_cases (a b : String) : minVer a b = a ∨ minVer a b = b := by
  unfold minVer
  split
  · exact Or.inr rfl
  · exact Or.inl rfl

theorem minVer_le_left (a b : String) : compareVer (minVer a b) a ≠ .gt := by
  unfold minVer
  split
  · intro hgt
    rename_i hlt
    rw [hgt] at hlt
    cases hlt
  · rw [compareVer_refl]
    intro h
    cases h

theorem minVer_le_right (a b : String) : compareVer (minVer a b) b ≠ .gt := by
  unfold minVer
  split
  · rw [compareVer_refl]
    intro h
    cases h
  · rename_i hnlt
    intro hgt
    have : compareVer b a = .lt := by
      rw [compareVer_swap, hgt]
      rfl
    exact hnlt this

theorem foldl_minVer_spec (cs : List String) :
    ∀ c, (cs.foldl minVer c = c ∨ cs.foldl minVer c ∈ cs)
      ∧ compareVer (cs.foldl minVer c) c ≠ .gt
      ∧ ∀ x ∈ cs, compareVer (cs.foldl minVer c) x ≠ .gt := by
  induction cs with
  | nil =>
    intro c
    refine ⟨Or.inl rfl, ?_, by intro x hx; cases hx⟩
    rw [List.foldl_nil, compareVer_refl]
    intro h
    cases h
  | cons d cs ih =>
    intro c
    have hfold : (d :: cs).foldl minVer c = cs.foldl minVer (minVer c d) := rfl
    obtain ⟨hmem, hle, hall⟩ := ih (minVer c d)
    refine ⟨?_, ?_, ?_⟩
    · rw [hfold]
      rcases hmem with h | h
      · rcases minVer_cases c d with h2 | h2
        · exact Or.inl (by rw [h, h2])
        · exact Or.inr (by rw [h, h2]; exact List.mem_cons_self _ _)
      · exact Or.inr (List.mem_cons_of_mem _ h)
    · rw [hfold]
      exact compareVer_le_trans hle (minVer_le_left c d)
    · intro x hx
      rw [hfold]
      rcases List.mem_cons.mp hx with h | h
      · subst h
        exact compareVer_le_trans hle (minVer_le_right c x)
      · exact hall x h

theorem foldMin_spec {l : List String} {m : String} (h : foldMin l = some m) :
    m ∈ l ∧ ∀ x ∈ l, compareVer m x ≠ .gt := by
  cases l with
  | nil => cases h
  | cons c cs =>
    simp only [foldMin, Option.some_inj] at h
    obtain ⟨hmem, hle, hall⟩ := foldl_minVer_spec cs c
    subst h
    constructor
    · rcases hmem with h | h
      · rw [h]
        exact List.mem_cons_self _ _
      · exact List.mem_cons_of_mem _ h
    · intro x hx
      rcases List.mem_cons.mp hx with h | h
      · subst h
        exact hle
      · exact hall x h

theorem foldMin_none_iff (l : List String) : foldMin l = none ↔ l = [] := by
  cases l with
  | nil => simp [foldMin]
  | cons c cs => simp [foldMin]

theorem foldl_minVer_const (cs : List String) :
    ∀ c, (∀ x ∈ cs, x = c) → cs.foldl minVer c = c := by
  induction cs with
  | nil => intro c _; rfl
  | cons d cs ih =>
    intro c hall
    have hd : d = c := hall d (List.mem_cons_self _ _)
    subst hd
    have hmm : minVer d d = d := by
      unfold minVer
      split <;> rfl
    have hfold : (d :: cs).foldl minVer d = cs.foldl minVer (minVer d d) := rfl
    rw [hfold, hmm]
    exact ih d (fun x hx => hall x (List.mem_cons_of_mem _ hx))

theorem ceilCands_all_eq
    {mf : String → String → Bool} {canonical repo subj : String}
    {rules : List LockRule} {r : LockRule}
    (hmem : r ∈ rules)
    (happ : ruleApplies mf canonical r repo subj = true)
    (huniq : ∀ r' ∈ rules, ruleApplies mf canonical r' repo subj = true → r' = r) :
    r.ceiling ∈ ceilCands mf canonical rules repo subj
    ∧ ∀ c ∈ ceilCands mf canonical rules repo subj, c = r.ceiling := by
  constructor
  · exact List.mem_map_of_mem _ (List.mem_filter.mpr ⟨hmem, happ⟩)
  · intro c hc
    obtain ⟨x, hx, hxc⟩ := List.mem_map.mp hc
    have hx' := List.mem_filter.mp hx
    rw [← hxc, huniq x hx'.1 hx'.2]

/-- C1: for a lockfile rule with a Numeric ceiling X that is the applicable
rule for the build's subject and the requested repository, requesting a
Numeric Y with compare(Y, X) = greater yields Capped(X) when exact is
false and Blocked when exact is true; requesting Y with compare(Y, X) not
greater yields Unrestricted(Y) in both modes. -/
theorem c1_numeric_ceiling_cap_or_block
    (mf : String → String → Bool) (canonical repo subj : String)
    (rules : List LockRule) (r : LockRule) (y : String) (exact : Bool)
    (hmem : r ∈ rules)
    (happ : ruleApplies mf canonical r repo subj = true)
    (huniq : ∀ r' ∈ rules, ruleApplies mf canonical r' repo subj = true → r' = r)
    (hnum : classifyNumeric r.ceiling = true)
    (hy : classifyNumeric y = true) :
    (compareVer y r.ceiling = .gt →
      applyCeil (ceilingSet mf canonical rules repo subj) y exact
        = (if exact = true then Decision.blocked else Decision.capped r.ceiling))
    ∧ (compareVer y r.ceiling ≠ .gt →
      applyCeil (ceilingSet mf canonical rules repo subj) y exact
        = .unrestricted y) := by
  obtain ⟨hcmem, hcall⟩ := ceilCands_all_eq hmem happ huniq
  have hnums : (ceilCands mf canonical rules repo subj).filter
      (fun c => classifyNumeric c) = ceilCands mf canonical rules repo subj := by
    apply List.filter_eq_self.mpr
    intro a ha
    rw [hcall a ha]
    exact hnum
  have hops : (ceilCands mf canonical rules repo subj).filter
      (fun c => !classifyNumeric c) = [] := by
    apply List.filter_eq_nil_iff.mpr
    intro a ha
    rw [hcall a ha]
    simp [hnum]
  have hmin : foldMin ((ceilCands mf canonical rules repo subj).filter
      (fun c => classifyNumeric c)) = some r.ceiling := by
    rw [hnums]
    cases hc : ceilCands mf canonical rules repo subj with
    | nil =>
      rw [hc] at hcmem
      cases hcmem
    | cons c0 cs =>
      have h0 : c0 = r.ceiling := by
        apply hcall
        rw [hc]
        exact List.mem_cons_self _ _
      have hcs : ∀ x ∈ cs, x = r.ceiling := by
        intro x hx
        apply hcall
        rw [hc]
        exact List.mem_cons_of_mem _ hx
      simp only [foldMin, Option.some_inj]
      rw [h0]
      exact foldl_minVer_const cs r.ceiling hcs
  have hcset : ceilingSet mf canonical rules repo subj =
      { numMin := some r.ceiling, opqs := [] } := by
    unfold ceilingSet
    rw [hmin, hops]
  constructor
  · intro hgt
    rw [hcset]
    simp [applyCeil, hy, hgt]
  · intro hngt
    rw [hcset]
    simp [applyCeil, hy, hngt]

/-- Witness for C1 at a concrete single-rule lockfile. -/
theorem c1_witness :
    applyCeil
      (ceilingSet (fun _ _ => true) "yt-dlp/yt-dlp"
        [{ repository := none, ceiling := "2022.08.18.36", pattern := "p" }]
        "yt-dlp/yt-dlp" "zip Python 3.6.0")
      "2023.11.16" false = Decision.capped "2022.08.18.36" := by
  have h := c1_numeric_ceiling_cap_or_block (fun _ _ => true) "yt-dlp/yt-dlp"
    "yt-dlp/yt-dlp" "zip Python 3.6.0"
    [{ repository := none, ceiling := "2022.08.18.36", pattern := "p" }]
    { repository := none, ceiling := "2022.08.18.36", pattern := "p" }
    "2023.11.16" false
    (by decide) (by decide) (by decide) (by decide) (by decide)
  exact h.1 (by decide)

theorem ceilCands_append_middle
    {mf : String → String → Bool} {canonical repo subj : String}
    (pre post : List LockRule) {r : LockRule}
    (happ : ruleApplies mf canonical r repo subj = true) :
    ceilCands mf canonical (pre ++ r :: post) repo subj
      = ceilCands mf canonical pre repo subj ++
        r.ceiling :: ceilCands mf canonical post repo subj := by
  unfold ceilCands
  rw [List.filter_append, List.filter_cons]
  simp [happ]

theorem ceilCands_append
    {mf : String → String → Bool} {canonical repo subj : String}
    (pre post : List LockRule) :
    ceilCands mf canonical (pre ++ post) repo subj
      = ceilCands mf canonical pre repo subj ++ ceilCands mf canonical post repo subj := by
  unfold ceilCands
  rw [List.filter_append, List.map_append]

/-- C2: for a lockfile rule with an Opaque ceiling T that applies to the
build's subject and the requested repository, requesting exactly T yields
Blocked regardless of the exact flag, and requesting any other tag is
unaffected by that rule (the decision is the same as with the rule removed
from the lockfile). -/
theorem c2_opaque_ceiling_blocks_exactly
    (mf : String → String → Bool) (canonical repo subj : String)
    (pre post : List LockRule) (r : LockRule) (req : String) (exact : Bool)
    (hop : classifyNumeric r.ceiling = false)
    (happ : ruleApplies mf canonical r repo subj = true) :
    (req = r.ceiling →
      applyCeil (ceilingSet mf canonical (pre ++ r :: post) repo subj) req exact
        = .blocked)
    ∧ (req ≠ r.ceiling →
      applyCeil (ceilingSet mf canonical (pre ++ r :: post) repo subj) req exact
        = applyCeil (ceilingSet mf canonical (pre ++ post) repo subj) req exact) := by
  have hc := ceilCands_append_middle pre post happ
  have hc2 := @ceilCands_append mf canonical repo subj pre post
  constructor
  · intro hreq
    have hreqclass : classifyNumeric req = false := by
      rw [hreq]
      exact hop
    have hmem : req ∈ (ceilCands mf canonical (pre ++ r :: post) repo subj).filter
        (fun c => !classifyNumeric c) := by
      apply List.mem_filter.mpr
      constructor
      · rw [hc, hreq]
        exact List.mem_append_right _ (List.mem_cons_self _ _)
      · simp [hreqclass]
    have hany : ((ceilingSet mf canonical (pre ++ r :: post) repo subj).opqs).any
        (fun t => t == req) = true := by
      apply List.any_eq_true.mpr
      exact ⟨req, hmem, by simp⟩
    unfold applyCeil
    rw [if_pos ⟨hreqclass, hany⟩]
  · intro hne
    have hbeq : (r.ceiling == req) = false :=
      beq_eq_false_iff_ne.mpr (fun h => hne h.symm)
    have hnum1 : (ceilCands mf canonical (pre ++ r :: post) repo subj).filter
        (fun c => classifyNumeric c)
        = (ceilCands mf canonical (pre ++ post) repo subj).filter
          (fun c => classifyNumeric c) := by
      rw [hc, hc2, List.filter_append, List.filter_append, List.filter_cons]
      simp [hop]
    have hopq1 : (ceilCands mf canonical (pre ++ r :: post) repo subj).filter
        (fun c => !classifyNumeric c)
        = (ceilCands mf canonical pre repo subj).filter (fun c => !classifyNumeric c)
          ++ r.ceiling :: (ceilCands mf canonical post repo subj).filter
            (fun c => !classifyNumeric c) := by
      rw [hc, List.filter_append, List.filter_cons]
      simp [hop]
    have hopq2 : (ceilCands mf canonical (pre ++ post) repo subj).filter
        (fun c => !classifyNumeric c)
        = (ceilCands mf canonical pre repo subj).filter (fun c => !classifyNumeric c)
          ++ (ceilCands mf canonical post repo subj).filter
            (fun c => !classifyNumeric c) := by
      rw [hc2, List.filter_append]
    have hany : ((ceilCands mf canonical (pre ++ r :: post) repo subj).filter
          (fun c => !classifyNumeric c)).any (fun t => t == req)
        = ((ceilCands mf canonical (pre ++ post) repo subj).filter
          (fun c => !classifyNumeric c)).any (fun t => t == req) := by
      rw [hopq1, hopq2, List.any_append, List.any_append, List.any_cons, hbeq]
      simp
    unfold applyCeil ceilingSet
    simp only [hany, hnum1]

/-- Witness for C2 at a concrete single-rule lockfile. -/
theorem c2_witness :
    applyCeil
      (ceilingSet (fun _ _ => true) "fork/yt-dlp"
        ([] ++ [{ repository := some "fork/yt-dlp", ceiling := "pr1234", pattern := "p" }]
          ++ [])
        "fork/yt-dlp" "zip Python 3.7.4")
      "pr1234" false = Decision.blocked := by
  have h := c2_opaque_ceiling_blocks_exactly (fun _ _ => true) "fork/yt-dlp"
    "fork/yt-dlp" "zip Python 3.7.4" []
    ([] : List LockRule)
    { repository := some "fork/yt-dlp", ceiling := "pr1234", pattern := "p" }
    "pr1234" false (by decide) (by decide)
  exact h.1 rfl

/-- C3: a legacy-format rule (line beginning `lock`) applies iff the
queried repository is the canonical repository, an explicit-format rule
(line beginning `lockV2`) applies iff its repository field equals the
queried repository, and the position of a rule within the document does
not affect which rules apply (applicability depends only on the rule) or
the resulting ceiling: any permutation of the rule list leaves the Opaque
ceiling set and the minimum Numeric ceiling (up to version equality)
unchanged. -/
theorem c3_repo_scoping_position_independent :
    (∀ (line : String) (r : LockRule) (mf : String → String → Bool)
        (canonical repo subj : String),
      parseRule line = some r →
        (startsWithChars ("lockV2 ".toList) line.toList = false →
          r.repository = none
          ∧ ruleApplies mf canonical r repo subj
              = ((canonical == repo) && mf r.pattern subj))
        ∧ (startsWithChars ("lockV2 ".toList) line.toList = true →
          ∃ x, r.repository = some x
          ∧ ruleApplies mf canonical r repo subj
              = ((x == repo) && mf r.pattern subj)))
    ∧ (∀ (mf : String → String → Bool) (canonical repo subj : String)
        (rules₁ rules₂ : List LockRule), rules₁.Perm rules₂ →
        (∀ t, t ∈ (ceilingSet mf canonical rules₁ repo subj).opqs
            ↔ t ∈ (ceilingSet mf canonical rules₂ repo subj).opqs)
        ∧ sameCeiling (ceilingSet mf canonical rules₁ repo subj).numMin
            (ceilingSet mf canonical rules₂ repo subj).numMin) := by
  constructor
  · intro line r mf canonical repo subj hp
    unfold parseRule parseRuleChars at hp
    by_cases h2 : startsWithChars ("lockV2 ".toList) line.toList = true
    · rw [if_pos h2] at hp
      constructor
      · intro hf
        rw [h2] at hf
        cases hf
      · intro _
        split at hp
        · split at hp
          · split at hp
            · exact Option.noConfusion hp
            · rw [← Option.some_inj.mp hp]
              exact ⟨_, rfl, by simp [ruleApplies]⟩
          · exact Option.noConfusion hp
        · exact Option.noConfusion hp
    · rw [if_neg h2] at hp
      have h2' : startsWithChars ("lockV2 ".toList) line.toList = false := by
        revert h2
        cases startsWithChars ("lockV2 ".toList) line.toList
        · intro _
          rfl
        · intro h
          exact absurd rfl h
      constructor
      · intro _
        by_cases h5 : startsWithChars ("lock ".toList) line.toList = true
        · rw [if_pos h5] at hp
          split at hp
          · split at hp
            · exact Option.noConfusion hp
            · rw [← Option.some_inj.mp hp]
              exact ⟨rfl, by simp [ruleApplies]⟩
          · exact Option.noConfusion hp
        · rw [if_neg h5] at hp
          exact Option.noConfusion hp
      · intro ht
        rw [h2'] at ht
        cases ht
  · intro mf canonical repo subj rules₁ rules₂ hperm
    have hcperm : (ceilCands mf canonical rules₁ repo subj).Perm
        (ceilCands mf canonical rules₂ repo subj) :=
      (hperm.filter _).map _
    constructor
    · intro t
      exact (hcperm.filter (fun c => !classifyNumeric c)).mem_iff
    · have hnperm := hcperm.filter (fun c => classifyNumeric c)
      rcases h1 : foldMin ((ceilCands mf canonical rules₁ repo subj).filter
          (fun c => classifyNumeric c)) with _ | m1
      · have he1 : (ceilCands mf canonical rules₁ repo subj).filter
            (fun c => classifyNumeric c) = [] := (foldMin_none_iff _).mp h1
        have he2 : (ceilCands mf canonical rules₂ repo subj).filter
            (fun c => classifyNumeric c) = [] := by
          rw [he1] at hnperm
          exact hnperm.symm.eq_nil
        show sameCeiling (ceilingSet mf canonical rules₁ repo subj).numMin
          (ceilingSet mf canonical rules₂ repo subj).numMin
        unfold ceilingSet
        simp only [h1, he2]
        rw [show foldMin [] = none from rfl]
        trivial
      · rcases h2 : foldMin ((ceilCands mf canonical rules₂ repo subj).filter
            (fun c => classifyNumeric c)) with _ | m2
        · have he2 : (ceilCands mf canonical rules₂ repo subj).filter
              (fun c => classifyNumeric c) = [] := (foldMin_none_iff _).mp h2
          rw [he2] at hnperm
          have he1 := hnperm.eq_nil
          rw [he1] at h1
          cases h1
        · obtain ⟨hm1mem, hm1le⟩ := foldMin_spec h1
          obtain ⟨hm2mem, hm2le⟩ := foldMin_spec h2
          have h12 : compareVer m1 m2 ≠ .gt :=
            hm1le m2 (hnperm.mem_iff.mpr hm2mem)
          have h21 : compareVer m2 m1 ≠ .gt :=
            hm2le m1 (hnperm.mem_iff.mp hm1mem)
          show sameCeiling (ceilingSet mf canonical rules₁ repo subj).numMin
            (ceilingSet mf canonical rules₂ repo subj).numMin
          unfold ceilingSet
          simp only [h1, h2]
          show compareVer m1 m2 = .eq
          exact compareVer_eq_of_le_le h12 h21

/-- Witness for C3: a concrete legacy line parses to an unscoped rule whose
applicability to a non-canonical repository reduces to the stated form. -/
theorem c3_witness :
    ({ repository := none, ceiling := "2022.08.18.36",
        pattern := ".+ Python 3\\.6" } : LockRule).repository = none
    ∧ ruleApplies (fun _ _ => true) "yt-dlp/yt-dlp"
        { repository := none, ceiling := "2022.08.18.36", pattern := ".+ Python 3\\.6" }
        "fork/yt-dlp" "zip Python 3.6.0"
      = (("yt-dlp/yt-dlp" == "fork/yt-dlp") && (fun _ _ => true) ".+ Python 3\\.6"
          "zip Python 3.6.0") :=
  (c3_repo_scoping_position_independent.1
    "lock 2022.08.18.36 .+ Python 3\\.6"
    { repository := none, ceiling := "2022.08.18.36", pattern := ".+ Python 3\\.6" }
    (fun _ _ => true) "yt-dlp/yt-dlp" "fork/yt-dlp" "zip Python 3.6.0"
    (by decide)).1 (by decide)

/-! ## Lemmas about the regex engine -/

theorem reMatch_of_nullable {p : Regx} (h : nullable p = true) :
    ∀ s, reMatch p s = true := by
  intro s
  cases s with
  | nil => exact h
  | cons a s => simp [reMatch, h]

/-- C5: the rest-of-line regex is applied to the match subject with a
prefix-anchored (start-of-string) match, not a full-string match: a match
of some prefix is never invalidated by trailing content (appending any
suffix preserves a match), and concretely the subject "zip Python 3.6.0"
matches the pattern `.+ Python 3\.6` under the prefix-anchored matcher
even though the trailing ".0" lies beyond the matched span, while a
full-string match of the same pattern against the same subject fails. -/
theorem c5_prefix_anchored_match :
    (∀ (p : Regx) (s t : List Char), reMatch p s = true → reMatch p (s ++ t) = true)
    ∧ matchPat ".+ Python 3\\.6" "zip Python 3.6.0" = true
    ∧ matchPatFull ".+ Python 3\\.6" "zip Python 3.6.0" = false := by
  refine ⟨?_, by decide, by decide⟩
  intro p s
  induction s generalizing p with
  | nil =>
    intro t h
    exact reMatch_of_nullable h t
  | cons a s ih =>
    intro t h
    rw [reMatch] at h
    rcases Bool.or_eq_true_iff.mp h with h1 | h1
    · exact reMatch_of_nullable h1 _
    · show reMatch p (a :: (s ++ t)) = true
      rw [reMatch]
      rw [ih (rderiv p a) t h1]
      simp

/-- Witness for C5 at a concrete pattern, prefix and suffix. -/
theorem c5_witness :
    reMatch (.ch 'a') ['a'] = true ∧ reMatch (.ch 'a') (['a'] ++ ['b', 'c']) = true :=
  ⟨by decide, c5_prefix_anchored_match.1 (.ch 'a') ['a'] ['b', 'c'] (by decide)⟩

/-! ## Lemmas about the release metadata resolver -/

/-- C6: toUpdateInfo derives `version` as follows: when the record's tag
name classifies as Numeric, version is the tag name; otherwise, when the
display name's trailing whitespace-delimited token classifies as Numeric,
version is that token; otherwise version is absent.  Concretely, tag
"pr1234" with name "pr1234 2023.12.31.555555" yields version
"2023.12.31.555555", and name "pr9999" yields no version. -/
theorem c6_version_derivation :
    (∀ (et : Option String) (r : ReleaseRecord), classifyNumeric r.tagName = true →
      (toUpdateInfo et r).version = some r.tagName)
    ∧ (∀ (et : Option String) (r : ReleaseRecord) (w : List Char),
        classifyNumeric r.tagName = false →
        (wordsOf r.displayName.toList).getLast? = some w →
        (toUpdateInfo et r).version
          = (if isNumericStr w = true then some (String.mk w) else none))
    ∧ (∀ (et : Option String) (r : ReleaseRecord),
        classifyNumeric r.tagName = false →
        (wordsOf r.displayName.toList).getLast? = none →
        (toUpdateInfo et r).version = none)
    ∧ (toUpdateInfo (some "pr1234")
        { tagName := "pr1234", targetCommitish := "0000000000000000000000000000000000000000",
          displayName := "pr1234 2023.12.31.555555", bodyText := "BODY" }).version
      = some "2023.12.31.555555"
    ∧ (toUpdateInfo (some "pr9999")
        { tagName := "pr9999", targetCommitish := "1111111111111111111111111111111111111111",
          displayName := "pr9999", bodyText := "BODY" }).version = none := by
  refine ⟨?_, ?_, ?_, by decide, by decide⟩
  · intro et r h
    simp [toUpdateInfo, deriveVersion, h]
  · intro et r w h hlast
    simp only [String.toList] at hlast
    simp [toUpdateInfo, deriveVersion, h, lastNumTok, hlast]
  · intro et r h hlast
    simp only [String.toList] at hlast
    simp [toUpdateInfo, deriveVersion, h, lastNumTok, hlast]

/-- Witness for C6 at a concrete record with a Numeric tag name. -/
theorem c6_witness :
    (toUpdateInfo none
      { tagName := "2023.12.31", targetCommitish := "bbbbbbbbbbbbbbbbbbbbbbbbbbbbbbbbbbbbbbbb",
        displayName := "yt-dlp 2023.12.31", bodyText := "BODY" }).version
    = some "2023.12.31" :=
  c6_version_derivation.1 none
    { tagName := "2023.12.31", targetCommitish := "bbbbbbbbbbbbbbbbbbbbbbbbbbbbbbbbbbbbbbbb",
      displayName := "yt-dlp 2023.12.31", bodyText := "BODY" } (by decide)

/-- C7: toUpdateInfo derives `commit` as follows: when the record's target
commitish is a 40-hexadecimal-character string, commit is that string;
otherwise commit is the hash captured from a `.../commit/<40-hex>` URL in
the body text, absent when no such URL exists.  Concretely, target
commitish "master" with the nightly body yields the c-repeated hash, and a
body with no commit URL yields no commit. -/
theorem c7_commit_derivation :
    (∀ (et : Option String) (r : ReleaseRecord), isHex40 r.targetCommitish = true →
      (toUpdateInfo et r).commit = some r.targetCommitish)
    ∧ (∀ (et : Option String) (r : ReleaseRecord), isHex40 r.targetCommitish = false →
      (toUpdateInfo et r).commit = (hashAfterCommitUrl r.bodyText.toList).map String.mk)
    ∧ (toUpdateInfo none
        { tagName := "2023.12.31.123456", targetCommitish := "master",
          displayName := "yt-dlp nightly 2023.12.31.123456",
          bodyText := "Generated from: https://github.com/yt-dlp/yt-dlp/commit/cccccccccccccccccccccccccccccccccccccccc" }).commit
      = some "cccccccccccccccccccccccccccccccccccccccc"
    ∧ (toUpdateInfo none
        { tagName := "pr9999", targetCommitish := "master",
          displayName := "pr9999", bodyText := "BODY" }).commit = none := by
  refine ⟨?_, ?_, by decide, by decide⟩
  · intro et r h
    simp [toUpdateInfo, deriveCommit, h]
  · intro et r h
    simp [toUpdateInfo, deriveCommit, h]

/-- Witness for C7 at a concrete record whose commitish is 40 hex chars. -/
theorem c7_witness :
    (toUpdateInfo (some "testing")
      { tagName := "testing", targetCommitish := "9999999999999999999999999999999999999999",
        displayName := "testing", bodyText := "BODY" }).commit
    = some "9999999999999999999999999999999999999999" :=
  c7_commit_derivation.1 (some "testing")
    { tagName := "testing", targetCommitish := "9999999999999999999999999999999999999999",
      displayName := "testing", bodyText := "BODY" } (by decide)

/-! ## Lemmas about the update orchestrator -/

/-- C4: the up-to-date decision of queryUpdate is two-tier and returns a
clean `none` (not an error) when no update is needed or the update is
blocked: when the resolved version and the current version are both
present and Numeric and the resolved one does not compare greater, the
result is `none`; otherwise when the resolved commit is present and equals
the current commit, the result is `none`; otherwise the UpdateInfo is
returned; and a Blocked policy decision also yields `none`.  In
particular, the Opaque-tagged testing release with a matching current
commit yields `none`, and the same release with a different current commit
yields its UpdateInfo. -/
theorem c4_two_tier_up_to_date :
    (∀ (info : UpdateInfo) (cv : Option String) (cc v curv : String),
      info.version = some v → cv = some curv →
      classifyNumeric v = true → classifyNumeric curv = true →
      compareVer v curv ≠ .gt →
      decideUpdate info cv cc = none)
    ∧ (∀ (info : UpdateInfo) (cv : Option String) (cc : String),
      tierVersions info.version cv = false → info.commit = some cc →
      decideUpdate info cv cc = none)
    ∧ (∀ (info : UpdateInfo) (cv : Option String) (cc : String),
      tierVersions info.version cv = false → info.commit ≠ some cc →
      decideUpdate info cv cc = some info)
    ∧ (∀ (mf : String → String → Bool) (canonical repo subj : String)
        (rules : List LockRule) (et : Option String) (r : ReleaseRecord)
        (exact : Bool) (cv : Option String) (cc : String),
      applyCeil (ceilingSet mf canonical rules repo subj) (toUpdateInfo et r).tag exact
        = .blocked →
      queryUpdate mf canonical rules repo subj et r exact cv cc = none)
    ∧ queryUpdate (fun _ _ => false) "yt-dlp/yt-dlp" [] "yt-dlp/yt-dlp" "zip"
        (some "testing")
        { tagName := "testing", targetCommitish := "9999999999999999999999999999999999999999",
          displayName := "testing", bodyText := "BODY" }
        true none "9999999999999999999999999999999999999999" = none
    ∧ queryUpdate (fun _ _ => false) "yt-dlp/yt-dlp" [] "yt-dlp/yt-dlp" "zip"
        (some "testing")
        { tagName := "testing", targetCommitish := "9999999999999999999999999999999999999999",
          displayName := "testing", bodyText := "BODY" }
        true none "aaaaaaaaaaaaaaaaaaaaaaaaaaaaaaaaaaaaaaaa"
      = some { tag := "testing", version := none, requestedVersion := none,
               commit := some "9999999999999999999999999999999999999999" } := by
  refine ⟨?_, ?_, ?_, ?_, by decide, by decide⟩
  · intro info cv cc v curv hv hcv h1 h2 hngt
    have ht : tierVersions info.version cv = true := by
      rw [hv, hcv]
      simp only [tierVersions]
      rw [h1, h2]
      rcases hcmp : compareVer v curv with _ | _ | _
      · simp [hcmp]
      · simp [hcmp]
      · exact absurd hcmp hngt
    unfold decideUpdate
    rw [if_pos ht]
  · intro info cv cc ht hcommit
    unfold decideUpdate
    rw [ht]
    simp [hcommit]
  · intro info cv cc ht hcommit
    unfold decideUpdate
    rw [ht]
    simp [hcommit]
  · intro mf canonical repo subj rules et r exact cv cc hb
    simp only [queryUpdate, hb]

/-- Witness for C4: current version 2024.01.01 is newer than the resolved
2023.12.31, so no update is needed. -/
theorem c4_witness :
    decideUpdate
      { tag := "2023.12.31", version := some "2023.12.31",
        requestedVersion := some "2023.12.31",
        commit := some "bbbbbbbbbbbbbbbbbbbbbbbbbbbbbbbbbbbbbbbb" }
      (some "2024.01.01") "aaaaaaaaaaaaaaaaaaaaaaaaaaaaaaaaaaaaaaaa" = none :=
  c4_two_tier_up_to_date.1
    { tag := "2023.12.31", version := some "2023.12.31",
      requestedVersion := some "2023.12.31",
      commit := some "bbbbbbbbbbbbbbbbbbbbbbbbbbbbbbbbbbbbbbbb" }
    (some "2024.01.01") "aaaaaaaaaaaaaaaaaaaaaaaaaaaaaaaaaaaaaaaa"
    "2023.12.31" "2024.01.01" rfl rfl (by decide) (by decide) (by decide)

/-! ## Lemmas about the mp4decrypt postprocessor -/

/-- C9 counterexample: on a parsed response whose `keys` entry is the empty
list — a non-None list — `keydb` does not return None; `key_data[0]` raises
IndexError instead. -/
theorem c9_counterexample :
    (keydb (some [])).result = KeydbResult.errIndex
    ∧ (keydb (some [])).result ≠ KeydbResult.retNone := by
  refine ⟨rfl, ?_⟩
  intro h
  cases h

/-- C9 (amended): `keydb` never returns True and never touches the input
file: it never runs the mp4decrypt subprocess, never removes the input and
never renames the output; when the parsed `keys` entry is a non-None
non-empty list it builds the command list, falls through and returns None;
when it is the empty list, `key_data[0]` raises IndexError; when `keys` is
absent or None, the code re-reads `keys` as None and raises TypeError
iterating it, leaving the subprocess invocation, os.remove, os.rename and
`return True` statements unreachable. -/
theorem c9_keydb_never_succeeds :
    ∀ keys : Option (List KeyEntry),
      (keydb keys).ranSubprocess = false
      ∧ (keydb keys).removedInput = false
      ∧ (keydb keys).renamedOutput = false
      ∧ (keydb keys).result ≠ .retTrue
      ∧ (∀ (e : KeyEntry) (l : List KeyEntry),
          keys = some (e :: l) → (keydb keys).result = .retNone)
      ∧ (keys = some [] → (keydb keys).result = .errIndex)
      ∧ (keys = none → (keydb keys).result = .errTypeNone) := by
  intro keys
  rcases keys with _ | l
  · exact ⟨rfl, rfl, rfl, fun h => KeydbResult.noConfusion h,
      fun e l h => Option.noConfusion h, fun h => Option.noConfusion h, fun _ => rfl⟩
  · rcases l with _ | ⟨e, l⟩
    · exact ⟨rfl, rfl, rfl, fun h => KeydbResult.noConfusion h,
        fun e l h => List.noConfusion (Option.some_inj.mp h), fun _ => rfl,
        fun h => Option.noConfusion h⟩
    · exact ⟨rfl, rfl, rfl, fun h => KeydbResult.noConfusion h,
        fun e' l' _ => rfl, fun h => List.noConfusion (Option.some_inj.mp h),
        fun h => Option.noConfusion h⟩

/-- Witness for C9 at a concrete one-element key list. -/
theorem c9_witness :
    (keydb (some [{ key := "aaaa:bbbb" }])).result = KeydbResult.retNone :=
  (c9_keydb_never_succeeds (some [{ key := "aaaa:bbbb" }])).2.2.2.2.1
    { key := "aaaa:bbbb" } [] rfl

/-- C10: for an info dict whose formats contain no entry with ".mpd" in the
manifest URL, or whose first format lacks http_headers, or whose fetched
manifest contains no cenc:pssh tag, a present (truthy) filepath together
with the decrypt kwarg makes `run` raise an unbound-local error:
`cenc_pssh_value` is assigned only inside the nested
manifest/cookies/pssh-tag branches yet is always passed to `keydb`. -/
theorem c10_run_unbound_local
    (info : InfoDict) (hk : Bool) (fetch : String → ManifestDoc) (fp : String)
    (hfp : info.filepath = some fp) (hne : fp ≠ "")
    (h : findMpdUrl info.formats = none
       ∨ info.formats.head?.bind FormatObj.httpHeaders = none
       ∨ (∀ u, findMpdUrl info.formats = some u → (fetch u).cencPssh = none)) :
    runPP info true hk fetch = .errUnboundLocal := by
  rcases hm : findMpdUrl info.formats with _ | u
  · simp [runPP, hm, hfp, hne]
  · rcases hh : info.formats.head? with _ | f0
    · simp [runPP, hm, hh, hfp, hne]
    · rcases hhh : f0.httpHeaders with _ | hs
      · simp [runPP, hm, hh, hhh, hfp, hne]
      · rcases h with h | h | h
        · rw [hm] at h
          cases h
        · rw [hh] at h
          simp [hhh] at h
        · have hp := h u hm
          by_cases hempty : hs.isEmpty = true
          · simp [runPP, hm, hh, hhh, hempty, hfp, hne]
          · simp [runPP, hm, hh, hhh, hempty, hp, hfp, hne]

/-- Witness for C10 at a concrete info dict with no formats. -/
theorem c10_witness :
    runPP { filepath := some "file.mp4", licenceUrl := none, formats := [] }
      true false (fun _ => { cencPssh := none }) = .errUnboundLocal :=
  c10_run_unbound_local
    { filepath := some "file.mp4", licenceUrl := none, formats := [] }
    false (fun _ => { cencPssh := none }) "file.mp4" rfl (by decide)
    (Or.inl (by decide))

/-! ## End-to-end checks against the spec's example scenarios -/

/-- Spec 8: identifier "zip Python 3.6.0" with the lockfile line
`lock 2022.08.18.36 .+ Python 3\.6`, requesting 2023.11.16 with
exact=false, resolves to the capped 2022.08.18.36. -/
theorem endToEnd_python36_capped :
    applyCeil
      (ceilingSet matchPat "yt-dlp/yt-dlp"
        (parseLockfile "lock 2022.08.18.36 .+ Python 3\\.6")
        "yt-dlp/yt-dlp" "zip Python 3.6.0")
      "2023.11.16" false = Decision.capped "2022.08.18.36" := by decide

/-- Spec 8: the same request with exact=true is blocked. -/
theorem endToEnd_python36_exact_blocked :
    applyCeil
      (ceilingSet matchPat "yt-dlp/yt-dlp"
        (parseLockfile "lock 2022.08.18.36 .+ Python 3\\.6")
        "yt-dlp/yt-dlp" "zip Python 3.6.0")
      "2023.11.16" true = Decision.blocked := by decide

/-- A Python 3.12 build is unaffected by the Python 3.6 lock. -/
theorem endToEnd_python312_unrestricted :
    applyCeil
      (ceilingSet matchPat "yt-dlp/yt-dlp"
        (parseLockfile "lock 2022.08.18.36 .+ Python 3\\.6")
        "yt-dlp/yt-dlp" "zip Python 3.12.0")
      "2023.12.31" false = Decision.unrestricted "2023.12.31" := by decide

/-- A legacy rule does not restrict a fork repository query. -/
theorem endToEnd_fork_unaffected_by_legacy :
    applyCeil
      (ceilingSet matchPat "yt-dlp/yt-dlp"
        (parseLockfile "lock 2022.08.18.36 .+ Python 3\\.6")
        "fork/yt-dlp" "zip Python 3.6.0")
      "2023.11.16" false = Decision.unrestricted "2023.11.16" := by decide
